import Mathlib

/-!
Shallow embedding of `lisa/analysis/rta.py` (class `RTAEventsAnalysis`):
the rt-app trace analysis of the `lisa` repository.  The code only ever
compares and subtracts trace timestamps, so they are modelled as exact
integers; the stats counters, which are divided, are modelled as exact
rationals.  Event tables are Lean lists of row structures in file order
(ascending trace timestamp, as delivered by the trace store), and Python
exceptions are `Except` values.
-/

/-- Error values standing for the Python exceptions the analysed code (or the
spec) can signal: `MissingTraceEventError`, the `ValueError` raised for an
unknown task, the spec's `AmbiguousReference`, the `ValueError` raised for an
out-of-range timestamp, `IndexError` from `.iloc[0]` on an empty frame, and
`KeyError` from `Index.get_loc`. -/
inductive Err where
  | missingRequirement
  | invalidTask
  | ambiguousReference
  | outOfRange
  | indexError
  | keyError
deriving DecidableEq, Repr

/-- Embeds the `TaskID` named tuple from `lisa.trace`: `(pid, comm)`. -/
structure TaskID where
  pid : Int
  comm : String
deriving DecidableEq, Repr

/-- Embeds one row of the `rtapp_loop` event table: the trace timestamp
(the frame index), the `__comm`/`__pid` columns, the `event` column
(`"start"` or `"end"`), and the `phase`/`phase_loop`/`thread_loop` counters. -/
structure LoopRow where
  time : ℤ
  comm : String
  pid : Int
  event : String
  phase : Int
  phase_loop : Int
  thread_loop : Int
deriving DecidableEq, Repr

/-- Embeds one row of the result of `df_phases`: the start timestamp (the
frame index) together with the `phase` and `duration` columns. -/
structure PhaseRow where
  start : ℤ
  phase : Int
  duration : ℤ
deriving DecidableEq, Repr

/-- Embeds the `PhaseWindow` named tuple: `(id, start, end)`. -/
structure PhaseWindow where
  id : Int
  start : ℤ
  stop : ℤ
deriving DecidableEq, Repr

/-- Embeds the `RefTime` named tuple: `(kernel, user)`. -/
structure RefTime where
  kernel : ℤ
  user : ℤ
deriving DecidableEq, Repr

/-- Embeds one row of the `rtapp_main` event table: the trace timestamp,
the `event` column (`"start"`, `"end"` or `"clock_ref"`) and the `data`
payload column. -/
structure MainRow where
  time : ℤ
  event : String
  data : ℤ
deriving DecidableEq, Repr

/-- Embeds `pandas.DataFrame.head`: for `0 ≤ n` the first `n` rows, for
`n < 0` all rows but the last `-n`. -/
def pdHead (n : Int) (xs : List ℤ) : List ℤ :=
  if 0 ≤ n then xs.take n.toNat else xs.take (xs.length - (-n).toNat)

/-- Embeds `RTAEventsAnalysis._get_task_phase` applied to the per-task
marker table: `times` is the `Time` column of
`df_rtapp_phases_start(task).loc[task.comm]` (resp. `..._end`), in row
order, and `phase` the signed phase index.  The Python body is
`if phase and phase < 0: phase += len(df)`, then `phase += 1`, then
`df.loc[task.comm].head(phase).tail(1).Time.iloc[0]`; `.iloc[0]` on the
empty selection raises `IndexError`. -/
def _get_task_phase (times : List ℤ) (phase : Int) : Except Err ℤ :=
  let ph := if phase != 0 && phase < 0 then phase + times.length else phase
  let ph := ph + 1
  match (pdHead ph times).getLast? with
  | none => .error .indexError
  | some t => .ok t

/-- Embeds `RTAEventsAnalysis.df_rtapp_phase_start`: the helper applied to
the task's start-marker times. -/
def df_rtapp_phase_start (startTimes : List ℤ) (phase : Int := 0) : Except Err ℤ :=
  _get_task_phase startTimes phase

/-- Embeds `RTAEventsAnalysis.df_rtapp_phase_end`: the helper applied to
the task's end-marker times. -/
def df_rtapp_phase_end (endTimes : List ℤ) (phase : Int := -1) : Except Err ℤ :=
  _get_task_phase endTimes phase

/-- Embeds `RTAEventsAnalysis.rtapp_reftime`: the `rtapp_main` frame is
restricted to the rows whose `event` is `"clock_ref"`, then
`RefTime(df.index[0], df.data.iloc[0])` is built from the first remaining
row; position `0` of an empty selection raises `IndexError`. -/
def rtapp_reftime (df : List MainRow) : Except Err RefTime :=
  let cl := df.filter (fun r => r.event == "clock_ref")
  match cl with
  | [] => .error .indexError
  | r :: _ => .ok ⟨r.time, r.data⟩

/-- Embeds the last row with `start ≤ ts`, which is what
`Index.get_loc(ts, method='ffill')` resolves to on the (monotonic)
start-time index of the phase frame; `none` when no row qualifies
(pandas raises `KeyError` there). -/
def lastStartLe (ts : ℤ) : List PhaseRow → Option PhaseRow
  | [] => none
  | r :: rs =>
    match lastStartLe ts rs with
    | some r2 => some r2
    | none => if r.start ≤ ts then some r else none

/-- Embeds `RTAEventsAnalysis.task_phase_at` applied to the reconstructed
phase frame `df_phases(task)`: reads the last row (`df.iloc[-1]`, an
`IndexError` on an empty frame), raises `ValueError` (`OutOfRange`) when
`timestamp` is beyond that row's `start + duration`, then resolves the
timestamp by forward fill and returns the matching `PhaseWindow`. -/
def task_phase_at (df : List PhaseRow) (timestamp : ℤ) : Except Err PhaseWindow :=
  match df.getLast? with
  | none => .error .indexError
  | some lastRow =>
    if lastRow.start + lastRow.duration < timestamp then .error .outOfRange
    else
      match lastStartLe timestamp df with
      | none => .error .keyError
      | some r => .ok ⟨r.phase, r.start, r.start + r.duration⟩

/-- Modelled from the spec: `df_split_signals(loops_df, ['phase'])` (from
`lisa.datautils`, whose source is not included under `src/`) splits the
loop-event table into maximal contiguous runs of rows sharing the same
`phase` value, preserving time order, and yields each run with its
`phase` value; a new run begins whenever `phase` changes. -/
def df_split_signals : List LoopRow → List (Int × List LoopRow)
  | [] => []
  | r :: rs =>
    match df_split_signals rs with
    | [] => [(r.phase, [r])]
    | (p, run) :: rest =>
      if r.phase = p then (p, r :: run) :: rest
      else (r.phase, [r]) :: (p, run) :: rest

/-- Embeds the inner `filter_partial_loop` of `df_phases`: drop the first
row of the run when it is an `"end"` marker, then drop the last row when
it is a `"start"` marker. -/
def filter_partial_loop (df : List LoopRow) : List LoopRow :=
  let df1 :=
    match df with
    | [] => []
    | r :: rest => if r.event == "end" then rest else r :: rest
  match df1.getLast? with
  | some r => if r.event == "start" then df1.dropLast else df1
  | none => df1

/-- Embeds the inner `get_duration` of `df_phases` on a non-empty run:
`(df.index[0], {'phase': phase, 'duration': df.index[-1] - df.index[0]})`
(the default row is never used: `df_phases` only calls it on non-empty
runs). -/
def get_duration (phase : Int) (df : List LoopRow) : PhaseRow :=
  match df, df.getLast? with
  | r :: _, some l => ⟨r.time, phase, l.time - r.time⟩
  | _, _ => ⟨0, phase, 0⟩

/-- Sorting of the phase rows by start timestamp (Python's stable
`sorted` on the `(start, …)` tuples). -/
def sortByStart (l : List PhaseRow) : List PhaseRow :=
  List.insertionSort (fun a b => a.start ≤ b.start) l

/-- Embeds `RTAEventsAnalysis.df_phases` applied to the per-task loop
table `df_rtapp_loop(task)`: split into per-phase runs, trim partial
loops, keep the non-empty runs, build `(start, phase, duration)` rows and
sort them by start. -/
def df_phases (loops_df : List LoopRow) : List PhaseRow :=
  let phases_df_list :=
    (df_split_signals loops_df).map (fun pr => (pr.1, filter_partial_loop pr.2))
  sortByStart
    ((phases_df_list.filter (fun pr => !pr.2.isEmpty)).map
      (fun pr => get_duration pr.1 pr.2))

/-- Restates, in the spec's words, the trimming of one run for claim C1:
drop the first row if it is an `"end"` marker, drop the last row if it is
a `"start"` marker. -/
def spec_trim (run : List LoopRow) : List LoopRow :=
  let a := if (run.head?.map LoopRow.event) = some "end" then run.tail else run
  if (a.getLast?.map LoopRow.event) = some "start" then a.dropLast else a

/-- Restates, in the spec's words, the rows claim C1 promises: one row
per maximal contiguous run left non-empty by the trimming, whose start is
the first remaining timestamp and whose duration spans to the last
remaining timestamp; runs trimmed to nothing yield no row. -/
def spec_rows (loops_df : List LoopRow) : List PhaseRow :=
  (df_split_signals loops_df).filterMap (fun pr =>
    match spec_trim pr.2, (spec_trim pr.2).getLast? with
    | r :: _, some l => some ⟨r.time, pr.1, l.time - r.time⟩
    | _, _ => none)

/-- Grouping key used by `_get_rtapp_phases`: the `(__comm, __pid, phase)`
columns of a loop row (the constant `event` column of each call adds
nothing to the key). -/
def loopKey (r : LoopRow) : String × Int × Int :=
  (r.comm, r.pid, r.phase)

/-- Lexicographic order on the `(phase_loop, thread_loop)` counter pair. -/
def pairLe (x y : Int × Int) : Prop :=
  x.1 < y.1 ∨ (x.1 = y.1 ∧ x.2 ≤ y.2)

instance (x y : Int × Int) : Decidable (pairLe x y) := by
  unfold pairLe; infer_instance

/-- Embeds `sort_values(by=['phase_loop', 'thread_loop'], ascending=False)`:
the rows ordered so the lexicographically largest counter pair comes
first. -/
def sortDescLoop (l : List LoopRow) : List LoopRow :=
  List.insertionSort
    (fun a b => pairLe (b.phase_loop, b.thread_loop) (a.phase_loop, a.thread_loop)) l

/-- Embeds `groupby(['__comm', '__pid', 'phase', 'event']).head(1)` on a
frame whose `event` column is constant: keep, in frame order, the first
row of each `(comm, pid, phase)` group. -/
def groupby_head1 : List LoopRow → List (String × Int × Int) → List LoopRow
  | [], _ => []
  | r :: rs, seen =>
    if loopKey r ∈ seen then groupby_head1 rs seen
    else r :: groupby_head1 rs (loopKey r :: seen)

/-- Embeds `sort_index()` on a loop frame: rows reordered by ascending
trace timestamp. -/
def sortByTime (l : List LoopRow) : List LoopRow :=
  List.insertionSort (fun a b => a.time ≤ b.time) l

/-- Embeds `RTAEventsAnalysis._get_rtapp_phases` applied to the per-task
loop table: restrict to the requested `event`, for `"start"` keep the
`phase_loop == 0` rows, for `"end"` sort by `(phase_loop, thread_loop)`
descending, keep the first row of each `(comm, pid, phase)` group, and
reorder the result by timestamp (the final column projection and
re-indexing of the Python keep the same rows and order and are not
modelled). -/
def _get_rtapp_phases (df : List LoopRow) (event : String) : List LoopRow :=
  let d := df.filter (fun r => r.event == event)
  let d :=
    if event == "start" then d.filter (fun r => r.phase_loop == 0)
    else if event == "end" then sortDescLoop d
    else d
  sortByTime (groupby_head1 d [])

/-- Restates, in the claim's words, the start-marker selection claim C2
promises: all rows with `phase_loop == 0`, sorted by timestamp. -/
def spec_start_markers (df : List LoopRow) : List LoopRow :=
  sortByTime (df.filter (fun r => r.event == "start" && r.phase_loop == 0))

/-- Embeds one row of an rt-app userspace event table as far as task
discovery and task filtering are concerned: the `__pid` and `__comm`
columns. -/
structure EvRow where
  pid : Int
  comm : String
deriving DecidableEq, Repr

/-- The trace store, as the Task Registry sees it: for each event kind
either a table of rows or nothing (`Trace.df_events` raising
`MissingTraceEventError`).  Modelled from the spec (the `Trace` class of
`lisa.trace` is not included under `src/`): an association list from
event-kind name to table. -/
def TraceTables := List (String × List EvRow)

/-- Lookup of one event kind in the trace store. -/
def df_events (tr : TraceTables) (event : String) : Option (List EvRow) :=
  tr.lookup event

/-- Embeds `RTAEventsAnalysis.RTAPP_USERSPACE_EVENTS`. -/
def RTAPP_USERSPACE_EVENTS : List String :=
  ["rtapp_main", "rtapp_task", "rtapp_loop", "rtapp_event", "rtapp_stats"]

/-- Strict lexicographic comparison of strings as character lists
(Python's string `<`: by code point, a proper prefix sorts first). -/
def strLt : List Char → List Char → Bool
  | [], [] => false
  | [], _ :: _ => true
  | _ :: _, [] => false
  | a :: as, b :: bs => if a < b then true else if a = b then strLt as bs else false

/-- Python's string `<=`: strictly below or equal. -/
def commLe (a b : String) : Prop :=
  strLt a.data b.data = true ∨ a = b

instance (a b : String) : Decidable (commLe a b) := by
  unfold commLe; infer_instance

/-- Python-order comparison of `TaskID` named tuples: `(pid, comm)`
lexicographically. -/
def taskLe (a b : TaskID) : Prop :=
  a.pid < b.pid ∨ (a.pid = b.pid ∧ commLe a.comm b.comm)

instance (a b : TaskID) : Decidable (taskLe a b) := by
  unfold taskLe; infer_instance

/-- The `(pid, comm)` pairs contributed by one event kind: none when the
kind is absent (the `except MissingTraceEventError: continue` branch),
one per row otherwise. -/
def tasksOfEvent (tr : TraceTables) (event : String) : List TaskID :=
  match df_events tr event with
  | none => []
  | some tab => tab.map (fun r => TaskID.mk r.pid r.comm)

/-- The `(pid, comm)` pairs contributed by every event kind present in
the trace, in scan order. -/
def collectTaskIds (tr : TraceTables) : List TaskID :=
  (RTAPP_USERSPACE_EVENTS.map (tasksOfEvent tr)).flatten

/-- Embeds `RTAEventsAnalysis.rtapp_tasks`: guarded by
`requires_one_event_of(*RTAPP_USERSPACE_EVENTS)` — modelled from the
spec, the decorator's source (in `lisa.trace`) not being under `src/`:
it raises `MissingTraceEventError` when none of the listed kinds is
present — then the union of the distinct `(pid, comm)` pairs over the
present kinds, sorted (`sorted` over a Python `set`). -/
def rtapp_tasks (tr : TraceTables) : Except Err (List TaskID) :=
  if RTAPP_USERSPACE_EVENTS.all (fun event => (df_events tr event).isNone) then
    .error .missingRequirement
  else
    .ok (List.insertionSort taskLe (collectTaskIds tr).dedup)

/-- Embeds one row of the `rtapp_stats` event table: the raw
per-activation counters. -/
structure StatsRow where
  slack : ℚ
  c_run : ℚ
  c_period : ℚ
  wu_lat : ℚ
deriving DecidableEq, Repr

/-- One row of `_get_stats`'s result: the raw counters plus the derived
`perf_index` column. -/
structure StatsOutRow where
  slack : ℚ
  c_run : ℚ
  c_period : ℚ
  wu_lat : ℚ
  perf_index : ℚ
deriving DecidableEq, Repr

/-- Embeds `RTAEventsAnalysis._get_stats`: a deep copy of the stats table
with the derived column `perf_index = slack / (c_period - c_run)` added
to every row. -/
def _get_stats (df : List StatsRow) : List StatsOutRow :=
  df.map (fun r => ⟨r.slack, r.c_run, r.c_period, r.wu_lat,
    r.slack / (r.c_period - r.c_run)⟩)

/-- The shapes a `task` argument can take: a bare pid, a bare name, or a
full `TaskID`. -/
inductive TaskArg where
  | pid (p : Int)
  | name (n : String)
  | tid (t : TaskID)
deriving DecidableEq, Repr

/-- Python truthiness of a supplied `task` argument, as `if not task:`
sees it: the integer `0` and the empty string are falsy; a `TaskID` named
tuple always has two fields and is always truthy. -/
def taskFalsy : TaskArg → Bool
  | .pid p => p == 0
  | .name n => n == ""
  | .tid _ => false

/-- Modelled from the spec: `df_filter_task_ids(df, [task], pid_col,
comm_col)` (from `lisa.datautils`, not included under `src/`) keeps
exactly the rows whose `(pid, comm)` match the task, preserving the
original row order. -/
def df_filter_task_ids (df : List EvRow) (t : TaskID) : List EvRow :=
  df.filter (fun r => r.pid == t.pid && r.comm == t.comm)

/-- Embeds `RTAEventsAnalysis._task_filtered`: `if not task: return df`,
then resolution through `trace.get_task_id` — modelled from the spec as
an arbitrary resolution function, `lisa.trace` not being under `src/` —
then the registry check raising `ValueError` (`InvalidTask`), then the
`(pid, comm)` row filter. -/
def _task_filtered (get_task_id : TaskArg → TaskID) (registry : List TaskID)
    (df : List EvRow) (task : Option TaskArg) : Except Err (List EvRow) :=
  match task with
  | none => .ok df
  | some t =>
    if taskFalsy t then .ok df
    else
      let tid := get_task_id t
      if tid ∈ registry then .ok (df_filter_task_ids df tid)
      else .error .invalidTask

/-- Claim C10: a falsy task value that was explicitly supplied — the pid `0`
or the empty-string name — makes `_task_filtered` return the input table
unchanged, with no resolution against the registry and no `InvalidTask`
error, exactly as if the task argument had been omitted. -/
theorem claim10_falsy_task (get_task_id : TaskArg → TaskID) (registry : List TaskID)
    (df : List EvRow) :
    _task_filtered get_task_id registry df (some (.pid 0)) = .ok df ∧
    _task_filtered get_task_id registry df (some (.name "")) = .ok df ∧
    _task_filtered get_task_id registry df none = .ok df := by
  exact ⟨rfl, rfl, rfl⟩

/-- Claim C9: with the task omitted `_task_filtered` returns the input
unchanged; with a (truthy) task resolving outside the registry it fails with
`InvalidTask`; with a task in the registry it returns exactly the rows whose
`(pid, comm)` match, preserving the original row order (a sublist of the
input). -/
theorem claim9_task_filter (get_task_id : TaskArg → TaskID) (registry : List TaskID)
    (df : List EvRow) :
    _task_filtered get_task_id registry df none = .ok df ∧
    (∀ t, taskFalsy t = false → get_task_id t ∉ registry →
      _task_filtered get_task_id registry df (some t) = .error .invalidTask) ∧
    (∀ t, taskFalsy t = false → get_task_id t ∈ registry →
      _task_filtered get_task_id registry df (some t) =
        .ok (df_filter_task_ids df (get_task_id t)) ∧
      (df_filter_task_ids df (get_task_id t)).Sublist df ∧
      (∀ row, row ∈ df_filter_task_ids df (get_task_id t) ↔
        row ∈ df ∧ row.pid = (get_task_id t).pid ∧ row.comm = (get_task_id t).comm)) := by
  refine ⟨rfl, ?_, ?_⟩
  · intro t hf hnot
    simp [_task_filtered, hf, hnot]
  · intro t hf hmem
    refine ⟨by simp [_task_filtered, hf, hmem], List.filter_sublist _, ?_⟩
    intro row
    simp [df_filter_task_ids, List.mem_filter, and_assoc]

/-- Claim C9 witness: the three behaviours at concrete registries and rows. -/
theorem claim9_witness :
    _task_filtered (fun _ => ⟨99, "q"⟩) [⟨100, "task0"⟩] [⟨100, "task0"⟩]
      (some (.name "q")) = .error .invalidTask ∧
    _task_filtered (fun _ => ⟨100, "task0"⟩) [⟨100, "task0"⟩]
      [⟨100, "task0"⟩, ⟨101, "x"⟩] (some (.pid 100)) = .ok [⟨100, "task0"⟩] := by
  constructor
  · exact (claim9_task_filter (fun _ => ⟨99, "q"⟩) [⟨100, "task0"⟩]
      [⟨100, "task0"⟩]).2.1 (.name "q") rfl (by simp)
  · exact ((claim9_task_filter (fun _ => ⟨100, "task0"⟩) [⟨100, "task0"⟩]
      [⟨100, "task0"⟩, ⟨101, "x"⟩]).2.2 (.pid 100) rfl (by simp)).1

/-- Claim C8: `_get_stats` adds the derived column
`perf_index = slack / (c_period - c_run)` to every row; no row is filtered
or clamped, every activation row of the input appears at the same position
of the output with its counters unchanged. -/
theorem claim8_perf_index (df : List StatsRow) :
    (_get_stats df).length = df.length ∧
    ∀ (i : Nat) (r : StatsRow), df[i]? = some r →
      (_get_stats df)[i]? =
        some (⟨r.slack, r.c_run, r.c_period, r.wu_lat,
          r.slack / (r.c_period - r.c_run)⟩ : StatsOutRow) := by
  refine ⟨by simp [_get_stats], ?_⟩
  intro i r h
  simp [_get_stats, List.getElem?_map, h]

/-- Claim C8 witness: for `slack=5, c_run=10, c_period=20` the derived
`perf_index` is exactly `1/2`. -/
theorem claim8_witness :
    (_get_stats [⟨5, 10, 20, 0⟩])[0]? = some ⟨5, 10, 20, 0, (1 : ℚ) / 2⟩ := by
  rw [(claim8_perf_index [⟨5, 10, 20, 0⟩]).2 0 ⟨5, 10, 20, 0⟩ rfl]
  norm_num

/-- Claim C5 (counterexample): for a task with a single marker (`N = 1`) and
the non-negative index `1 ≥ N`, both phase lookups silently return the last
(only) marker's timestamp instead of failing with an index error: the
`head(phase).tail(1)` selection clamps. -/
theorem claim5_counterexample :
    df_rtapp_phase_start [(100 : ℤ)] 1 = Except.ok 100 ∧
    df_rtapp_phase_end [(100 : ℤ)] 1 = Except.ok 100 := by
  exact ⟨rfl, rfl⟩

/-- Claim C5 (amended): for every non-empty marker list and every
non-negative index at or beyond the marker count, `df_rtapp_phase_start` and
`df_rtapp_phase_end` do not fail: they silently clamp to the last available
marker and return its timestamp. -/
theorem claim5_amended (times : List ℤ) (i : Int) (h1 : times ≠ [])
    (h2 : (times.length : Int) ≤ i) :
    df_rtapp_phase_start times i = Except.ok (times.getLast h1) ∧
    df_rtapp_phase_end times i = Except.ok (times.getLast h1) := by
  have hlen : 0 < times.length := List.length_pos.mpr h1
  have key : _get_task_phase times i = Except.ok (times.getLast h1) := by
    have hc : (i != 0 && decide (i < 0)) = false := by
      simp only [Bool.and_eq_false_iff, bne_eq_false_iff_eq, decide_eq_false_iff_not,
        not_lt]
      right
      omega
    have hhead : pdHead (i + 1) times = times := by
      unfold pdHead
      rw [if_pos (by omega)]
      exact List.take_of_length_le (by omega)
    unfold _get_task_phase
    simp only [hc, Bool.false_eq_true, if_false, hhead,
      List.getLast?_eq_getLast times h1]
  exact ⟨key, key⟩

/-- Claim C5 witness: the amended statement at the concrete one-marker list
and index 1. -/
theorem claim5_witness :
    df_rtapp_phase_start [(100 : ℤ)] 2 = Except.ok 100 ∧
    df_rtapp_phase_end [(100 : ℤ)] 2 = Except.ok 100 := by
  exact claim5_amended [(100 : ℤ)] 2 (by simp) (by simp)

/-- Claim C6: negative phase addressing agrees with addressing from the
front, `phase(-k) = phase(N - k)` for `1 ≤ k ≤ N`, for the start and the end
markers alike (both go through the same `_get_task_phase` helper). -/
theorem claim6_negative_index (times : List ℤ) (k : Nat)
    (h1 : 1 ≤ k) (h2 : k ≤ times.length) :
    df_rtapp_phase_start times (-(k : Int)) =
      df_rtapp_phase_start times ((times.length : Int) - k) ∧
    df_rtapp_phase_end times (-(k : Int)) =
      df_rtapp_phase_end times ((times.length : Int) - k) := by
  have key : _get_task_phase times (-(k : Int)) =
      _get_task_phase times ((times.length : Int) - k) := by
    have hc1 : ((-(k : Int)) != 0 && decide (-(k : Int) < 0)) = true := by
      simp only [Bool.and_eq_true, bne_iff_ne, ne_eq, decide_eq_true_eq]
      omega
    have hc2 : (((times.length : Int) - k) != 0 &&
        decide ((times.length : Int) - k < 0)) = false := by
      simp only [Bool.and_eq_false_iff, bne_eq_false_iff_eq, decide_eq_false_iff_not,
        not_lt]
      by_cases h : (times.length : Int) - k = 0
      · left; exact h
      · right; omega
    have harg : -(k : Int) + (times.length : Int) = (times.length : Int) - k := by
      omega
    unfold _get_task_phase
    simp only [hc1, hc2, if_true, Bool.false_eq_true, if_false, harg]
  exact ⟨key, key⟩

/-- Claim C6 witness: on a two-marker list, index `-1` and index `N - 1 = 1`
agree and both return the last timestamp. -/
theorem claim6_witness :
    df_rtapp_phase_start [(5 : ℤ), 7] (-(1 : Nat) : Int) =
      df_rtapp_phase_start [(5 : ℤ), 7] ((([(5 : ℤ), 7].length : Int)) - (1 : Nat)) ∧
    df_rtapp_phase_start [(5 : ℤ), 7] (-1) = Except.ok 7 := by
  exact ⟨(claim6_negative_index [(5 : ℤ), 7] 1 (by simp) (by simp)).1, rfl⟩

/-- Claim C3 (counterexample): a main-thread table with two `"clock_ref"`
events does not fail — `rtapp_reftime` silently returns the first marker's
`(kernel, user)` pair; no `AmbiguousReference` check exists in the code. -/
theorem claim3_counterexample :
    rtapp_reftime [⟨1, "start", 0⟩, ⟨2, "clock_ref", 5⟩, ⟨3, "clock_ref", 7⟩] =
      Except.ok ⟨2, 5⟩ ∧
    (([⟨1, "start", 0⟩, ⟨2, "clock_ref", 5⟩, ⟨3, "clock_ref", 7⟩] :
        List MainRow).filter (fun r => r.event == "clock_ref")).length = 2 := by
  exact ⟨rfl, rfl⟩

/-- Claim C3 (amended): `rtapp_reftime` returns
`RefTime(kernel = timestamp, user = data)` of the *first* `"clock_ref"` row
whenever at least one exists — in particular, with exactly one such row it
returns that row's pair, and with several it silently returns the first —
and fails (with an `IndexError`, not `AmbiguousReference`) only when no
`"clock_ref"` row exists. -/
theorem claim3_amended (df : List MainRow) :
    rtapp_reftime df =
      match df.find? (fun r => r.event == "clock_ref") with
      | some r => Except.ok ⟨r.time, r.data⟩
      | none => Except.error Err.indexError := by
  induction df with
  | nil => rfl
  | cons a l ih =>
    by_cases h : a.event = "clock_ref"
    · simp [rtapp_reftime, List.filter_cons, List.find?, h]
    · have h' : (a.event == "clock_ref") = false := by
        simp [h]
      simp only [rtapp_reftime, List.filter_cons, h', Bool.false_eq_true, if_false,
        List.find?, cond_false] at ih ⊢
      exact ih

/-- Claim C3 witness: on a table with exactly one `"clock_ref"` row the
amended statement evaluates to that row's `(kernel, user)` pair. -/
theorem claim3_witness :
    rtapp_reftime [⟨1, "start", 0⟩, ⟨2, "clock_ref", 5⟩] = Except.ok ⟨2, 5⟩ := by
  rw [claim3_amended [⟨1, "start", 0⟩, ⟨2, "clock_ref", 5⟩]]
  rfl

/-- Forward-fill resolution: on a frame sorted by `start`, `lastStartLe`
returns a row with the greatest `start ≤ ts` when one exists, and `none`
exactly when every row starts after `ts`. -/
theorem lastStartLe_spec (ts : ℤ) (df : List PhaseRow)
    (hsorted : df.Pairwise (fun a b => a.start ≤ b.start)) :
    (∀ r, lastStartLe ts df = some r →
      r ∈ df ∧ r.start ≤ ts ∧ ∀ s ∈ df, s.start ≤ ts → s.start ≤ r.start) ∧
    (lastStartLe ts df = none → ∀ s ∈ df, ts < s.start) := by
  induction df with
  | nil =>
    exact ⟨fun r h => by simp [lastStartLe] at h, fun _ s hs => by simp at hs⟩
  | cons a l ih =>
    have hpair := (List.pairwise_cons.mp hsorted).1
    have ihl := ih (List.pairwise_cons.mp hsorted).2
    constructor
    · intro r hr
      simp only [lastStartLe] at hr
      cases hl : lastStartLe ts l with
      | some r2 =>
        rw [hl] at hr
        injection hr with hr2
        subst hr2
        obtain ⟨hmem, hle, hmax⟩ := ihl.1 r2 hl
        refine ⟨List.mem_cons_of_mem a hmem, hle, ?_⟩
        intro s hs hsle
        rcases List.mem_cons.mp hs with rfl | hs'
        · exact le_trans (hpair r2 hmem) (le_refl _)
        · exact hmax s hs' hsle
      | none =>
        rw [hl] at hr
        by_cases ha : a.start ≤ ts
        · rw [if_pos ha] at hr
          cases hr
          refine ⟨List.mem_cons_self a l, ha, ?_⟩
          intro s hs hsle
          rcases List.mem_cons.mp hs with rfl | hs'
          · exact le_refl _
          · exact absurd hsle (not_le.mpr (ihl.2 hl s hs'))
        · rw [if_neg ha] at hr
          cases hr
    · intro hn s hs
      simp only [lastStartLe] at hn
      cases hl : lastStartLe ts l with
      | some r2 => rw [hl] at hn; cases hn
      | none =>
        rw [hl] at hn
        rcases List.mem_cons.mp hs with rfl | hs'
        · by_contra hc
          rw [if_pos (not_lt.mp hc)] at hn
          cases hn
        · exact ihl.2 hl s hs'

/-- Claim C4: on a non-empty phase frame sorted by start, `task_phase_at`
fails with `OutOfRange` exactly on the timestamps strictly beyond the last
phase's end, and on any timestamp covered from below it returns the
`PhaseWindow` of the row with the greatest `start ≤ timestamp`
(forward-fill), with bounds `(start, start + duration)`. -/
theorem claim4_task_phase_at (df : List PhaseRow) (hne : df ≠ [])
    (hsorted : df.Pairwise (fun a b => a.start ≤ b.start)) :
    (∀ ts : ℤ, (df.getLast hne).start + (df.getLast hne).duration < ts →
      task_phase_at df ts = Except.error Err.outOfRange) ∧
    (∀ ts : ℤ, ts ≤ (df.getLast hne).start + (df.getLast hne).duration →
      (∃ r ∈ df, r.start ≤ ts) →
      ∃ r ∈ df, task_phase_at df ts = Except.ok ⟨r.phase, r.start, r.start + r.duration⟩ ∧
        r.start ≤ ts ∧ ∀ s ∈ df, s.start ≤ ts → s.start ≤ r.start) := by
  constructor
  · intro ts hts
    unfold task_phase_at
    rw [List.getLast?_eq_getLast df hne]
    simp only [if_pos hts]
  · intro ts hts hex
    unfold task_phase_at
    rw [List.getLast?_eq_getLast df hne]
    simp only [if_neg (not_lt.mpr hts)]
    cases hl : lastStartLe ts df with
    | none =>
      obtain ⟨r0, hr0, hr0le⟩ := hex
      exact absurd hr0le (not_le.mpr ((lastStartLe_spec ts df hsorted).2 hl r0 hr0))
    | some r =>
      obtain ⟨hmem, hle, hmax⟩ := (lastStartLe_spec ts df hsorted).1 r hl
      exact ⟨r, hmem, rfl, hle, hmax⟩

/-- Claim C4 witness: for phase windows `[(phase 0, 0–10), (phase 1, 10–25)]`,
lookup at 5 gives phase 0 with bounds `(0, 10)`, lookup at 10 gives phase 1
with bounds `(10, 25)`, and lookup at 30 fails with `OutOfRange`. -/
theorem claim4_witness :
    task_phase_at [⟨0, 0, 10⟩, ⟨10, 1, 15⟩] 5 = Except.ok ⟨0, 0, 10⟩ ∧
    task_phase_at [⟨0, 0, 10⟩, ⟨10, 1, 15⟩] 10 = Except.ok ⟨1, 10, 25⟩ ∧
    task_phase_at [⟨0, 0, 10⟩, ⟨10, 1, 15⟩] 30 = Except.error Err.outOfRange := by
  refine ⟨rfl, rfl, ?_⟩
  exact (claim4_task_phase_at [⟨0, 0, 10⟩, ⟨10, 1, 15⟩] (by simp)
    (by norm_num [List.pairwise_cons])).1 30 (by norm_num [List.getLast])

/-- Trichotomy of the lexicographic character-list comparison. -/
theorem strLt_total : ∀ x y : List Char, strLt x y = true ∨ x = y ∨ strLt y x = true
  | [], [] => Or.inr (Or.inl rfl)
  | [], _ :: _ => Or.inl rfl
  | _ :: _, [] => Or.inr (Or.inr rfl)
  | a :: as, b :: bs => by
    rcases lt_trichotomy a b with h | h | h
    · left
      simp [strLt, h]
    · subst h
      rcases strLt_total as bs with h2 | h2 | h2
      · left
        simp [strLt, h2]
      · right; left
        rw [h2]
      · right; right
        simp [strLt, h2]
    · right; right
      simp [strLt, h]

/-- Transitivity of the lexicographic character-list comparison. -/
theorem strLt_trans (x : List Char) : ∀ y z : List Char,
    strLt x y = true → strLt y z = true → strLt x z = true := by
  induction x with
  | nil =>
    intro y z h1 h2
    cases y with
    | nil => simp [strLt] at h1
    | cons b bs =>
      cases z with
      | nil => simp [strLt] at h2
      | cons c cs => rfl
  | cons a as ih =>
    intro y z h1 h2
    cases y with
    | nil => simp [strLt] at h1
    | cons b bs =>
      cases z with
      | nil => simp [strLt] at h2
      | cons c cs =>
        simp only [strLt] at h1 h2 ⊢
        by_cases hab : a < b
        · by_cases hbc : b < c
          · rw [if_pos (hab.trans hbc)]
          · rcases eq_or_ne b c with rfl | hbc'
            · rw [if_pos hab]
            · rw [if_neg hbc, if_neg hbc'] at h2
              exact absurd h2 (by simp)
        · rcases eq_or_ne a b with rfl | hab'
          · rw [if_neg hab, if_pos rfl] at h1
            by_cases hbc : a < c
            · rw [if_pos hbc]
            · rcases eq_or_ne a c with rfl | hbc'
              · rw [if_neg hbc, if_pos rfl] at h2 ⊢
                exact ih bs cs h1 h2
              · rw [if_neg hbc, if_neg hbc'] at h2
                exact absurd h2 (by simp)
          · rw [if_neg hab, if_neg hab'] at h1
            exact absurd h1 (by simp)

/-- Totality of the string comparison. -/
theorem commLe_total (a b : String) : commLe a b ∨ commLe b a := by
  unfold commLe
  rcases strLt_total a.data b.data with h | h | h
  · exact Or.inl (Or.inl h)
  · exact Or.inl (Or.inr (by cases a; cases b; exact congrArg String.mk h))
  · exact Or.inr (Or.inl h)

/-- Transitivity of the string comparison. -/
theorem commLe_trans (a b c : String) (h1 : commLe a b) (h2 : commLe b c) :
    commLe a c := by
  unfold commLe at h1 h2 ⊢
  rcases h1 with h1 | rfl
  · rcases h2 with h2 | rfl
    · exact Or.inl (strLt_trans a.data b.data c.data h1 h2)
    · exact Or.inl h1
  · exact h2

/-- Totality of the `(pid, comm)` comparison of `TaskID` values. -/
theorem taskLe_total (a b : TaskID) : taskLe a b ∨ taskLe b a := by
  unfold taskLe
  rcases lt_trichotomy a.pid b.pid with h | h | h
  · exact Or.inl (Or.inl h)
  · rcases commLe_total a.comm b.comm with hc | hc
    · exact Or.inl (Or.inr ⟨h, hc⟩)
    · exact Or.inr (Or.inr ⟨h.symm, hc⟩)
  · exact Or.inr (Or.inl h)

/-- Transitivity of the `(pid, comm)` comparison of `TaskID` values. -/
theorem taskLe_trans (a b c : TaskID) (h1 : taskLe a b) (h2 : taskLe b c) :
    taskLe a c := by
  unfold taskLe at h1 h2 ⊢
  rcases h1 with h1 | ⟨h1e, h1c⟩ <;> rcases h2 with h2 | ⟨h2e, h2c⟩
  · exact Or.inl (h1.trans h2)
  · exact Or.inl (lt_of_lt_of_le h1 (le_of_eq h2e))
  · exact Or.inl (lt_of_le_of_lt (le_of_eq h1e) h2)
  · exact Or.inr ⟨h1e.trans h2e, commLe_trans _ _ _ h1c h2c⟩

/-- Claim C7: `rtapp_tasks` fails with `MissingRequirement` exactly when
none of the known rt-app event kinds is present in the trace; otherwise it
returns the distinct `(pid, comm)` pairs found across all present kinds
(absent kinds silently skipped), without duplicates and sorted by
`(pid, name)`. -/
theorem claim7_rtapp_tasks (tr : TraceTables) :
    (rtapp_tasks tr = Except.error Err.missingRequirement ↔
      ∀ e ∈ RTAPP_USERSPACE_EVENTS, df_events tr e = none) ∧
    (∀ ts, rtapp_tasks tr = Except.ok ts →
      ts.Pairwise taskLe ∧ ts.Nodup ∧
      (∀ t, t ∈ ts ↔ ∃ e ∈ RTAPP_USERSPACE_EVENTS, ∃ tab, df_events tr e = some tab ∧
        ∃ r ∈ tab, TaskID.mk r.pid r.comm = t)) := by
  by_cases hc : RTAPP_USERSPACE_EVENTS.all (fun event => (df_events tr event).isNone) = true
  · have herr : rtapp_tasks tr = .error .missingRequirement := by
      unfold rtapp_tasks
      rw [if_pos hc]
    refine ⟨⟨fun _ e he => ?_, fun _ => herr⟩, fun ts hts => ?_⟩
    · exact Option.isNone_iff_eq_none.mp (List.all_eq_true.mp hc e he)
    · rw [herr] at hts
      cases hts
  · have hok : rtapp_tasks tr =
        .ok (List.insertionSort taskLe (collectTaskIds tr).dedup) := by
      unfold rtapp_tasks
      rw [if_neg hc]
    constructor
    · constructor
      · intro h
        rw [hok] at h
        cases h
      · intro hall
        exfalso
        apply hc
        rw [List.all_eq_true]
        intro e he
        rw [hall e he]
        rfl
    · intro ts hts
      rw [hok] at hts
      injection hts with hts
      subst hts
      haveI : IsTotal TaskID taskLe := ⟨taskLe_total⟩
      haveI : IsTrans TaskID taskLe := ⟨taskLe_trans⟩
      refine ⟨?_, ?_, ?_⟩
      · exact List.sorted_insertionSort taskLe ((collectTaskIds tr).dedup)
      · exact ((List.perm_insertionSort taskLe _).nodup_iff).mpr (List.nodup_dedup _)
      · intro t
        rw [(List.perm_insertionSort taskLe _).mem_iff, List.mem_dedup]
        unfold collectTaskIds
        rw [List.mem_flatten]
        constructor
        · rintro ⟨l, hl, htl⟩
          obtain ⟨e, he, rfl⟩ := List.mem_map.mp hl
          unfold tasksOfEvent at htl
          cases hde : df_events tr e with
          | none => rw [hde] at htl; cases htl
          | some tab =>
            rw [hde] at htl
            obtain ⟨r, hr, hrt⟩ := List.mem_map.mp htl
            exact ⟨e, he, tab, hde, r, hr, hrt⟩
        · rintro ⟨e, he, tab, hde, r, hr, hrt⟩
          refine ⟨tasksOfEvent tr e, List.mem_map_of_mem _ he, ?_⟩
          unfold tasksOfEvent
          rw [hde]
          exact hrt ▸ List.mem_map_of_mem _ hr

/-- Claim C7 witness: a trace with two present kinds and one absent kind
yields the sorted union of the pairs; the all-absent trace fails. -/
theorem claim7_witness :
    rtapp_tasks [("rtapp_loop", [⟨101, "b"⟩, ⟨100, "a"⟩]),
        ("rtapp_main", [⟨100, "a"⟩])] =
      Except.ok [⟨100, "a"⟩, ⟨101, "b"⟩] ∧
    ([⟨100, "a"⟩, ⟨101, "b"⟩] : List TaskID).Nodup := by
  constructor
  · rfl
  · exact ((claim7_rtapp_tasks [("rtapp_loop", [⟨101, "b"⟩, ⟨100, "a"⟩]),
      ("rtapp_main", [⟨100, "a"⟩])]).2 [⟨100, "a"⟩, ⟨101, "b"⟩] rfl).2.1

/-- Reflexivity of the `(phase_loop, thread_loop)` lexicographic order. -/
theorem pairLe_refl (x : Int × Int) : pairLe x x :=
  Or.inr ⟨rfl, le_refl _⟩

/-- Transitivity of the `(phase_loop, thread_loop)` lexicographic order. -/
theorem pairLe_trans (x y z : Int × Int) (h1 : pairLe x y) (h2 : pairLe y z) :
    pairLe x z := by
  obtain ⟨x1, x2⟩ := x
  obtain ⟨y1, y2⟩ := y
  obtain ⟨z1, z2⟩ := z
  simp only [pairLe] at h1 h2 ⊢
  omega

/-- Totality of the `(phase_loop, thread_loop)` lexicographic order. -/
theorem pairLe_total (x y : Int × Int) : pairLe x y ∨ pairLe y x := by
  obtain ⟨x1, x2⟩ := x
  obtain ⟨y1, y2⟩ := y
  simp only [pairLe]
  omega

/-- `groupby(...).head(1)` keeps a subsequence of the frame. -/
theorem groupby_head1_sublist : ∀ (l : List LoopRow) (seen : List (String × Int × Int)),
    (groupby_head1 l seen).Sublist l := by
  intro l
  induction l with
  | nil => intro seen; simp [groupby_head1]
  | cons r rs ih =>
    intro seen
    unfold groupby_head1
    by_cases h : loopKey r ∈ seen
    · rw [if_pos h]
      exact (ih seen).cons r
    · rw [if_neg h]
      exact (ih _).cons₂ r

/-- A row kept by `groupby(...).head(1)` has a key that was not already
seen. -/
theorem groupby_head1_key_not_seen : ∀ (l : List LoopRow) (seen) (r : LoopRow),
    r ∈ groupby_head1 l seen → loopKey r ∉ seen := by
  intro l
  induction l with
  | nil => intro seen r h; simp [groupby_head1] at h
  | cons x xs ih =>
    intro seen r h
    unfold groupby_head1 at h
    by_cases hx : loopKey x ∈ seen
    · rw [if_pos hx] at h
      exact ih seen r h
    · rw [if_neg hx] at h
      rcases List.mem_cons.mp h with rfl | h'
      · exact hx
      · intro hseen
        exact ih _ r h' (List.mem_cons_of_mem _ hseen)

/-- `groupby(...).head(1)` keeps at most one row per key. -/
theorem groupby_head1_keys_nodup : ∀ (l : List LoopRow) (seen),
    ((groupby_head1 l seen).map loopKey).Nodup := by
  intro l
  induction l with
  | nil => intro seen; simp [groupby_head1]
  | cons x xs ih =>
    intro seen
    unfold groupby_head1
    by_cases hx : loopKey x ∈ seen
    · rw [if_pos hx]
      exact ih seen
    · rw [if_neg hx]
      rw [List.map_cons, List.nodup_cons]
      refine ⟨?_, ih _⟩
      intro hmem
      obtain ⟨r, hr, hkey⟩ := List.mem_map.mp hmem
      exact groupby_head1_key_not_seen xs _ r hr
        (by rw [hkey]; exact List.mem_cons_self _ _)

/-- `groupby(...).head(1)` keeps at least one row per key of the frame. -/
theorem groupby_head1_keys_cover : ∀ (l : List LoopRow) (seen) (r : LoopRow), r ∈ l →
    loopKey r ∈ seen ∨ loopKey r ∈ (groupby_head1 l seen).map loopKey := by
  intro l
  induction l with
  | nil => intro seen r h; cases h
  | cons x xs ih =>
    intro seen r h
    unfold groupby_head1
    by_cases hx : loopKey x ∈ seen
    · rw [if_pos hx]
      rcases List.mem_cons.mp h with rfl | h'
      · exact Or.inl hx
      · exact ih seen r h'
    · rw [if_neg hx]
      rcases List.mem_cons.mp h with rfl | h'
      · right
        rw [List.map_cons]
        exact List.mem_cons_self _ _
      · rcases ih (loopKey x :: seen) r h' with hin | hin
        · rcases List.mem_cons.mp hin with heq | hseen
          · right
            rw [List.map_cons, heq]
            exact List.mem_cons_self _ _
          · exact Or.inl hseen
        · right
          rw [List.map_cons]
          exact List.mem_cons_of_mem _ hin

/-- On a frame sorted by descending `(phase_loop, thread_loop)`, the row
`groupby(...).head(1)` keeps for a key dominates every row of the frame
with that key. -/
theorem groupby_head1_max : ∀ (l : List LoopRow) (seen),
    l.Pairwise (fun a b =>
      pairLe (b.phase_loop, b.thread_loop) (a.phase_loop, a.thread_loop)) →
    ∀ r ∈ groupby_head1 l seen, ∀ s ∈ l, loopKey s = loopKey r →
      pairLe (s.phase_loop, s.thread_loop) (r.phase_loop, r.thread_loop) := by
  intro l
  induction l with
  | nil => intro seen _ r hr; simp [groupby_head1] at hr
  | cons x xs ih =>
    intro seen hp r hr s hs hkey
    obtain ⟨hx_ge, hp'⟩ := List.pairwise_cons.mp hp
    unfold groupby_head1 at hr
    by_cases hx : loopKey x ∈ seen
    · rw [if_pos hx] at hr
      have hnot := groupby_head1_key_not_seen xs seen r hr
      rcases List.mem_cons.mp hs with heq_s | hs'
      · exfalso
        apply hnot
        rw [← hkey, heq_s]
        exact hx
      · exact ih seen hp' r hr s hs' hkey
    · rw [if_neg hx] at hr
      rcases List.mem_cons.mp hr with heq_r | hr'
      · rcases List.mem_cons.mp hs with heq_s | hs'
        · rw [heq_s, heq_r]
          exact pairLe_refl _
        · rw [heq_r]
          exact hx_ge s hs'
      · have hnot := groupby_head1_key_not_seen xs _ r hr'
        rcases List.mem_cons.mp hs with heq_s | hs'
        · exfalso
          apply hnot
          rw [← hkey, heq_s]
          exact List.mem_cons_self _ _
        · exact ih _ hp' r hr' s hs' hkey

/-- Claim C2 (amended): the boundary-marker selection keeps, for `"start"`
events, one row per `(comm, pid, phase)` group — each kept row has
`phase_loop == 0`, and every group containing a `phase_loop == 0` start row
is represented (when a group holds several such rows only the first
survives `groupby(...).head(1)`, so not *all* `phase_loop == 0` rows are
kept); for `"end"` events exactly one row per group, one that is maximal in
its group under the `(phase_loop, thread_loop)` ordering; and both
selections are returned sorted by timestamp. -/
theorem claim2_amended (df : List LoopRow) :
    (∀ r ∈ _get_rtapp_phases df "start",
      r ∈ df ∧ r.event = "start" ∧ r.phase_loop = 0) ∧
    ((_get_rtapp_phases df "start").map loopKey).Nodup ∧
    (∀ k, k ∈ (_get_rtapp_phases df "start").map loopKey ↔
      k ∈ (df.filter (fun r => r.event == "start" && r.phase_loop == 0)).map loopKey) ∧
    (∀ r ∈ _get_rtapp_phases df "end", r ∈ df ∧ r.event = "end" ∧
      ∀ s ∈ df, s.event = "end" → loopKey s = loopKey r →
        pairLe (s.phase_loop, s.thread_loop) (r.phase_loop, r.thread_loop)) ∧
    ((_get_rtapp_phases df "end").map loopKey).Nodup ∧
    (∀ k, k ∈ (_get_rtapp_phases df "end").map loopKey ↔
      k ∈ (df.filter (fun r => r.event == "end")).map loopKey) ∧
    (_get_rtapp_phases df "start").Pairwise (fun a b => a.time ≤ b.time) ∧
    (_get_rtapp_phases df "end").Pairwise (fun a b => a.time ≤ b.time) := by
  haveI instTimeTotal : IsTotal LoopRow (fun a b => a.time ≤ b.time) :=
    ⟨fun a b => le_total _ _⟩
  haveI instTimeTrans : IsTrans LoopRow (fun a b => a.time ≤ b.time) :=
    ⟨fun _ _ _ h1 h2 => le_trans h1 h2⟩
  haveI instDescTotal : IsTotal LoopRow (fun a b =>
      pairLe (b.phase_loop, b.thread_loop) (a.phase_loop, a.thread_loop)) :=
    ⟨fun a b => pairLe_total (b.phase_loop, b.thread_loop) (a.phase_loop, a.thread_loop)⟩
  haveI instDescTrans : IsTrans LoopRow (fun a b =>
      pairLe (b.phase_loop, b.thread_loop) (a.phase_loop, a.thread_loop)) :=
    ⟨fun _ _ _ h1 h2 => pairLe_trans _ _ _ h2 h1⟩
  have hS : _get_rtapp_phases df "start" =
      sortByTime (groupby_head1
        ((df.filter (fun r => r.event == "start")).filter
          (fun r => r.phase_loop == 0)) []) := rfl
  have hE : _get_rtapp_phases df "end" =
      sortByTime (groupby_head1
        (sortDescLoop (df.filter (fun r => r.event == "end"))) []) := rfl
  have permS : (_get_rtapp_phases df "start").Perm
      (groupby_head1 ((df.filter (fun r => r.event == "start")).filter
        (fun r => r.phase_loop == 0)) []) := by
    rw [hS]
    exact List.perm_insertionSort _ _
  have permE : (_get_rtapp_phases df "end").Perm
      (groupby_head1 (sortDescLoop (df.filter (fun r => r.event == "end"))) []) := by
    rw [hE]
    exact List.perm_insertionSort _ _
  have permDesc : (sortDescLoop (df.filter (fun r => r.event == "end"))).Perm
      (df.filter (fun r => r.event == "end")) := List.perm_insertionSort _ _
  refine ⟨?_, ?_, ?_, ?_, ?_, ?_, ?_, ?_⟩
  · intro r hr
    have hrg := permS.mem_iff.mp hr
    have hrd := (groupby_head1_sublist _ []).mem hrg
    simp only [List.mem_filter, beq_iff_eq] at hrd
    exact ⟨hrd.1.1, hrd.1.2, hrd.2⟩
  · exact (permS.map loopKey).nodup_iff.mpr (groupby_head1_keys_nodup _ [])
  · intro k
    rw [(permS.map loopKey).mem_iff]
    constructor
    · intro hk
      obtain ⟨r, hr, hrk⟩ := List.mem_map.mp hk
      have hrd := (groupby_head1_sublist _ []).mem hr
      simp only [List.mem_filter, beq_iff_eq] at hrd
      refine List.mem_map.mpr ⟨r, ?_, hrk⟩
      simp only [List.mem_filter, Bool.and_eq_true, beq_iff_eq]
      exact ⟨hrd.1.1, hrd.1.2, hrd.2⟩
    · intro hk
      obtain ⟨r, hr, hrk⟩ := List.mem_map.mp hk
      simp only [List.mem_filter, Bool.and_eq_true, beq_iff_eq] at hr
      have hrd : r ∈ (df.filter (fun r => r.event == "start")).filter
          (fun r => r.phase_loop == 0) := by
        simp only [List.mem_filter, beq_iff_eq]
        exact ⟨⟨hr.1, hr.2.1⟩, hr.2.2⟩
      rcases groupby_head1_keys_cover _ [] r hrd with h | h
      · cases h
      · rw [← hrk]
        exact h
  · intro r hr
    have hrg := permE.mem_iff.mp hr
    have hrsd := (groupby_head1_sublist _ []).mem hrg
    have hrd := permDesc.mem_iff.mp hrsd
    simp only [List.mem_filter, beq_iff_eq] at hrd
    refine ⟨hrd.1, hrd.2, ?_⟩
    intro s hs hse hkey
    have hsd : s ∈ df.filter (fun r => r.event == "end") := by
      simp only [List.mem_filter, beq_iff_eq]
      exact ⟨hs, hse⟩
    have hssd := permDesc.mem_iff.mpr hsd
    have hsorted : (sortDescLoop (df.filter (fun r => r.event == "end"))).Pairwise
        (fun a b => pairLe (b.phase_loop, b.thread_loop) (a.phase_loop, a.thread_loop)) := by
      unfold sortDescLoop
      exact List.sorted_insertionSort _ _
    exact groupby_head1_max _ [] hsorted r hrg s hssd hkey
  · exact (permE.map loopKey).nodup_iff.mpr (groupby_head1_keys_nodup _ [])
  · intro k
    rw [(permE.map loopKey).mem_iff]
    constructor
    · intro hk
      obtain ⟨r, hr, hrk⟩ := List.mem_map.mp hk
      have hrd := permDesc.mem_iff.mp ((groupby_head1_sublist _ []).mem hr)
      exact List.mem_map.mpr ⟨r, hrd, hrk⟩
    · intro hk
      obtain ⟨r, hr, hrk⟩ := List.mem_map.mp hk
      have hrd := permDesc.mem_iff.mpr hr
      rcases groupby_head1_keys_cover _ [] r hrd with h | h
      · cases h
      · rw [← hrk]
        exact h
  · rw [hS]
    unfold sortByTime
    exact List.sorted_insertionSort _ _
  · rw [hE]
    unfold sortByTime
    exact List.sorted_insertionSort _ _

/-- Claim C2 (counterexample): with two `"start"` rows of the same
`(comm, pid, phase)` group both having `phase_loop == 0`, the selection
keeps only the first, while the claim's "exactly the rows with
`phase_loop == 0`" (restated by `spec_start_markers`) would keep both. -/
theorem claim2_counterexample :
    _get_rtapp_phases
      [⟨1, "task0", 100, "start", 0, 0, 0⟩, ⟨2, "task0", 100, "start", 0, 0, 1⟩]
      "start" = [⟨1, "task0", 100, "start", 0, 0, 0⟩] ∧
    spec_start_markers
      [⟨1, "task0", 100, "start", 0, 0, 0⟩, ⟨2, "task0", 100, "start", 0, 0, 1⟩] =
      [⟨1, "task0", 100, "start", 0, 0, 0⟩, ⟨2, "task0", 100, "start", 0, 0, 1⟩] := by
  exact ⟨rfl, rfl⟩

/-- Claim C2 witness: on a table with one start row and two end rows of one
group, the end selection keeps the `(phase_loop, thread_loop)`-maximal row,
and the amended statement's sortedness holds there. -/
theorem claim2_witness :
    _get_rtapp_phases
      [⟨1, "t", 100, "start", 0, 0, 0⟩, ⟨2, "t", 100, "end", 0, 1, 1⟩,
        ⟨3, "t", 100, "end", 0, 0, 0⟩] "end" =
      [⟨2, "t", 100, "end", 0, 1, 1⟩] ∧
    (_get_rtapp_phases
      [⟨1, "t", 100, "start", 0, 0, 0⟩, ⟨2, "t", 100, "end", 0, 1, 1⟩,
        ⟨3, "t", 100, "end", 0, 0, 0⟩] "end").Pairwise
      (fun a b => a.time ≤ b.time) := by
  constructor
  · rfl
  · exact (claim2_amended
      [⟨1, "t", 100, "start", 0, 0, 0⟩, ⟨2, "t", 100, "end", 0, 1, 1⟩,
        ⟨3, "t", 100, "end", 0, 0, 0⟩]).2.2.2.2.2.2.2

/-- The code's trimming of one run agrees with the spec's description of
it: drop a leading `"end"` marker, drop a trailing `"start"` marker. -/
theorem filter_partial_loop_eq_spec_trim (run : List LoopRow) :
    filter_partial_loop run = spec_trim run := by
  have step2 : ∀ l1 : List LoopRow,
      (match l1.getLast? with
        | some r => if r.event == "start" then l1.dropLast else l1
        | none => l1) =
      (if (l1.getLast?.map LoopRow.event) = some "start" then l1.dropLast else l1) := by
    intro l1
    cases hl : l1.getLast? with
    | none => simp
    | some x =>
      by_cases hx : x.event = "start"
      · simp [hx]
      · simp [hx]
  cases run with
  | nil => rfl
  | cons r rest =>
    by_cases h : r.event = "end"
    · have hb : (r.event == "end") = true := by simp [h]
      unfold filter_partial_loop spec_trim
      simp only [hb, if_true, List.head?_cons, Option.map_some', h, if_pos rfl,
        List.tail_cons]
      exact step2 rest
    · have hb : (r.event == "end") = false := by simp [h]
      have hne : ¬ (some r.event = some ("end" : String)) := by simp [h]
      unfold filter_partial_loop spec_trim
      simp only [hb, Bool.false_eq_true, if_false, List.head?_cons, Option.map_some']
      rw [if_neg hne]
      exact step2 (r :: rest)

/-- The trim–filter–build pipeline of `df_phases`, run over any list of
`(phase, run)` pairs, produces exactly the spec's row per non-emptily
trimmed run and nothing for the others. -/
theorem build_rows_eq (xs : List (Int × List LoopRow)) :
    ((xs.map (fun pr => (pr.1, filter_partial_loop pr.2))).filter
      (fun pr => !pr.2.isEmpty)).map (fun pr => get_duration pr.1 pr.2) =
    xs.filterMap (fun pr =>
      match spec_trim pr.2, (spec_trim pr.2).getLast? with
      | r :: _, some l => some ⟨r.time, pr.1, l.time - r.time⟩
      | _, _ => none) := by
  induction xs with
  | nil => rfl
  | cons pr xs ih =>
    obtain ⟨p, run⟩ := pr
    simp only [List.map_cons, List.filter_cons, List.filterMap_cons]
    rw [filter_partial_loop_eq_spec_trim run]
    cases htrim : spec_trim run with
    | nil =>
      simp only [List.isEmpty_nil, Bool.not_true, Bool.false_eq_true, if_false]
      exact ih
    | cons r rest =>
      cases hlast : (r :: rest).getLast? with
      | none => simp at hlast
      | some l =>
        have hgd : get_duration p (r :: rest) = ⟨r.time, p, l.time - r.time⟩ := by
          unfold get_duration
          rw [hlast]
        simp only [List.isEmpty_cons, Bool.not_false, if_true, List.map_cons, hgd, ih]

/-- Claim C1: `df_phases` produces exactly the rows the spec promises —
one `(start, phase, duration)` row per maximal contiguous run of equal
`phase` left non-empty by the boundary trimming (leading `"end"` and
trailing `"start"` rows dropped), with start the first remaining timestamp
and duration up to the last remaining timestamp, runs trimmed to nothing
contributing no row — and the result is sorted by start. -/
theorem claim1_df_phases (loops_df : List LoopRow) :
    (df_phases loops_df).Perm (spec_rows loops_df) ∧
    (df_phases loops_df).Pairwise (fun a b => a.start ≤ b.start) := by
  haveI : IsTotal PhaseRow (fun a b => a.start ≤ b.start) :=
    ⟨fun a b => le_total _ _⟩
  haveI : IsTrans PhaseRow (fun a b => a.start ≤ b.start) :=
    ⟨fun _ _ _ h1 h2 => le_trans h1 h2⟩
  constructor
  · simp only [df_phases]
    rw [build_rows_eq (df_split_signals loops_df)]
    unfold spec_rows sortByStart
    exact List.perm_insertionSort _ _
  · simp only [df_phases]
    unfold sortByStart
    exact List.sorted_insertionSort _ _

/-- Claim C1 witness: a trace cut mid-loop — the table opens on the tail
`"end"` of phase 0 and closes on the head `"start"` of phase 2 — yields
exactly one row, for the fully observed phase 1, and agrees with the
spec-side row construction. -/
theorem claim1_witness :
    df_phases
      [⟨1, "t", 100, "end", 0, 3, 3⟩, ⟨2, "t", 100, "start", 1, 0, 4⟩,
        ⟨3, "t", 100, "end", 1, 0, 4⟩, ⟨4, "t", 100, "start", 2, 0, 5⟩] =
      [⟨2, 1, 1⟩] ∧
    (df_phases
      [⟨1, "t", 100, "end", 0, 3, 3⟩, ⟨2, "t", 100, "start", 1, 0, 4⟩,
        ⟨3, "t", 100, "end", 1, 0, 4⟩, ⟨4, "t", 100, "start", 2, 0, 5⟩]).Perm
      (spec_rows
        [⟨1, "t", 100, "end", 0, 3, 3⟩, ⟨2, "t", 100, "start", 1, 0, 4⟩,
          ⟨3, "t", 100, "end", 1, 0, 4⟩, ⟨4, "t", 100, "start", 2, 0, 5⟩]) := by
  constructor
  · rfl
  · exact (claim1_df_phases
      [⟨1, "t", 100, "end", 0, 3, 3⟩, ⟨2, "t", 100, "start", 1, 0, 4⟩,
        ⟨3, "t", 100, "end", 1, 0, 4⟩, ⟨4, "t", 100, "start", 2, 0, 5⟩]).1
